import Mathlib

/-!
Shallow embedding of `src/git_fetch_all/git_fetch_all.py` (the async
tree-walking fetch engine of git-fetch-all), together with proofs about it.

Modelling choices:
* A Python exception value is a `PyErr`; the field `isException` records
  whether its class derives from `Exception` (as opposed to deriving only
  from `BaseException`, like `KeyboardInterrupt`, `SystemExit` and
  `asyncio.CancelledError`).  The code of `fetch_single_repo` branches on
  exactly this `isinstance(v, Exception)` distinction.
* `remote.fetch()` is an opaque I/O primitive; a `Remote` carries the
  outcome of calling it: either a raised `PyErr` or the list of
  `FetchInfo.flags` words it returned (`Except PyErr (List Nat)`).
* `asyncio.gather(..., return_exceptions=True)` delivers each coroutine's
  outcome as a value, so the per-remote outcomes are `Except PyErr Bool`;
  `asyncio.gather` without that flag propagates the first raised error,
  which the `Except` monad models as error propagation.
* Python `dict` values are association lists with Python's dict semantics:
  a key keeps its first-insertion position and its latest value
  (`dictInsert`), a dict display / comprehension is `dictOfList`, and the
  `|` merge operator is `dictUnion`.
* The filesystem tree is the inductive `Dir`: a directory either opens as a
  repository root (`Repo(folder, search_parent_directories=False)`
  succeeds, modelled by `some repo`) or raises
  `InvalidGitRepositoryError` (modelled by `none`), and has named child
  directories (the entries of `folder.glob("*")` that are directories).
  A path is the list of directory names from the walk's root.
-/

namespace GitFetchAll

/-- A Python exception value.  `isException` is true when the exception
class derives from `Exception`; it is false for classes deriving only from
`BaseException` (`KeyboardInterrupt`, `SystemExit`, `asyncio.CancelledError`). -/
structure PyErr where
  name : String
  isException : Bool
deriving DecidableEq

/-- Python's built-in `MemoryError`: it derives from `Exception`. -/
def MemoryError : PyErr := ⟨"MemoryError", true⟩

/-- Python's `asyncio.CancelledError`: since Python 3.8 it derives from
`BaseException` directly, not from `Exception`. -/
def CancelledError : PyErr := ⟨"CancelledError", false⟩

/-- Python's built-in `TypeError` (a typical programming defect): it
derives from `Exception`. -/
def TypeError : PyErr := ⟨"TypeError", true⟩

/-- A git remote of a repository: its name, and the outcome of calling its
opaque `fetch()` primitive — a raised exception, or the list of
`FetchInfo.flags` words of the returned per-reference infos. -/
structure Remote where
  name : String
  fetch : Except PyErr (List Nat)

/-- A repository handle: its list of remotes (`repo.remotes`). -/
structure Repo where
  remotes : List Remote

/-- The value stored per remote in the result dict
(`dict[RemoteName, Exception | bool]`): a boolean (`True` = updated,
`False` = up to date) or a captured exception. -/
inductive FetchResult where
  | success : Bool → FetchResult
  | failure : PyErr → FetchResult
deriving DecidableEq

/-- Embedding of `fetch_remote` (git_fetch_all.py lines 29-36):
`res = remote.fetch()`; `all_uptodate = all((info.flags >> 2) % 2 for info
in res)`; `return not all_uptodate`.  A Python int is truthy iff nonzero. -/
def fetch_remote (remote : Remote) : Except PyErr Bool :=
  match remote.fetch with
  | .error e => .error e
  | .ok res =>
    let all_uptodate := res.all (fun info => (info >>> 2) % 2 != 0)
    .ok (!all_uptodate)

/-- Embedding of the remote filtering statements of `fetch_single_repo`
(git_fetch_all.py lines 45-49): keep only the remotes named in
`include_remotes` when it is given, then drop the remotes named in
`exclude_remotes` when it is given. -/
def filterRemotes (remotes : List Remote)
    (include_remotes exclude_remotes : Option (List String)) : List Remote :=
  let remotes := match include_remotes with
    | some names => remotes.filter (fun r => names.contains r.name)
    | none => remotes
  match exclude_remotes with
  | some names => remotes.filter (fun r => !names.contains r.name)
  | none => remotes

/-- Embedding of the result loop of `fetch_single_repo` (git_fetch_all.py
lines 57-62): walk the per-remote outcomes in dict order; a raised value
that is a `BaseException` but not an `Exception` is re-raised, every other
outcome (a bool, or a captured `Exception`) is recorded per key. -/
def collectResults :
    List (String × Except PyErr Bool) → Except PyErr (List (String × FetchResult))
  | [] => .ok []
  | (name, v) :: rest =>
    match v with
    | .error e =>
      if e.isException then
        match collectResults rest with
        | .error e2 => .error e2
        | .ok tl => .ok ((name, .failure e) :: tl)
      else .error e
    | .ok b =>
      match collectResults rest with
      | .error e2 => .error e2
      | .ok tl => .ok ((name, .success b) :: tl)

/-- Python dict assignment `d[k] = v`: an existing key keeps its position
and gets the new value, a new key is appended. -/
def dictInsert {K V : Type} [DecidableEq K]
    (d : List (K × V)) (k : K) (v : V) : List (K × V) :=
  if d.any (fun kv => decide (kv.1 = k)) then
    d.map (fun kv => if kv.1 = k then (k, v) else kv)
  else d ++ [(k, v)]

/-- Python dict construction from a key-value sequence (dict comprehension
or `dict(zip(...))`): successive insertion into an empty dict. -/
def dictOfList {K V : Type} [DecidableEq K] (l : List (K × V)) : List (K × V) :=
  l.foldl (fun d kv => dictInsert d kv.1 kv.2) []

/-- Python dict merge `a | b`: `a` updated by the entries of `b`. -/
def dictUnion {K V : Type} [DecidableEq K] (a b : List (K × V)) : List (K × V) :=
  b.foldl (fun d kv => dictInsert d kv.1 kv.2) a

/-- Python dict indexing as an `Option`: the value of the first (hence, in a
well-formed dict, the only) entry with the given key. -/
def dictLookup {K V : Type} [DecidableEq K] (d : List (K × V)) (k : K) : Option V :=
  (d.find? (fun kv => decide (kv.1 = k))).map Prod.snd

/-- The key list of a dict. -/
def dictKeys {K V : Type} (d : List (K × V)) : List K := d.map Prod.fst

/-- Embedding of `fetch_single_repo` (git_fetch_all.py lines 39-63):
filter the remotes, fetch each concurrently
(`asyncio.gather(..., return_exceptions=True)` delivers every outcome), key
the outcomes by remote name as a dict, then run the result loop that
re-raises foreign `BaseException`s and records everything else. -/
def fetch_single_repo (repo : Repo)
    (include_remotes exclude_remotes : Option (List String)) :
    Except PyErr (List (String × FetchResult)) :=
  let remotes := filterRemotes repo.remotes include_remotes exclude_remotes
  let fetch_tasks := remotes.map (fun r => (r.name, fetch_remote r))
  let results_with_baseexceptions := dictOfList fetch_tasks
  collectResults results_with_baseexceptions

/-- Embedding of the Python test `folder.name.startswith(".")`
(git_fetch_all.py line 92): with the one-character prefix `"."` this is
exactly "the first character of the name is a dot". -/
def startsWithDot (name : String) : Bool := name.data.head? == some '.'

/-- A directory of the filesystem tree: whether it opens as a repository
root, and its child directories with their names. -/
inductive Dir where
  | mk : Option Repo → List (String × Dir) → Dir

/-- The outcome of probing the directory as a repository root. -/
def Dir.repo : Dir → Option Repo
  | .mk r _ => r

/-- The named child directories of the directory. -/
def Dir.children : Dir → List (String × Dir)
  | .mk _ c => c

/-- A path of directory names, from the walk's root downward. -/
abbrev DirPath := List String

/-- The result mapping of a walk:
`dict[tuple[Path, RemoteName], Exception | bool]`. -/
abbrev ResultSet := List ((DirPath × String) × FetchResult)

mutual

/-- Embedding of `fetch_remotes_in_subfolders` (git_fetch_all.py lines
66-111): probe the directory as a repository root; on success fetch it and
return its keyed results at once; otherwise stop at budget `0`, or list
the child directories that are not hidden and not excluded by name,
recurse into each with budget `recurse - 1` and `exclude_dirnames=[]`, and
merge the gathered result sets with `|`. -/
def fetch_remotes_in_subfolders (d : Dir) (path : DirPath) (recurse : Int)
    (include_remotes exclude_remotes : Option (List String))
    (exclude_dirnames : List String) : Except PyErr ResultSet :=
  match d with
  | .mk (some repo) _children =>
    match fetch_single_repo repo include_remotes exclude_remotes with
    | .error e => .error e
    | .ok result => .ok (dictOfList (result.map (fun rs => ((path, rs.1), rs.2))))
  | .mk none children =>
    if recurse = 0 then .ok []
    else
      let folders := children.filter
        (fun nc => !startsWithDot nc.1 && !exclude_dirnames.contains nc.1)
      match gatherSubfolders folders path recurse include_remotes exclude_remotes with
      | .error e => .error e
      | .ok subfolder_results =>
        .ok (subfolder_results.foldl (fun fetched r => dictUnion fetched r) [])
termination_by sizeOf d
decreasing_by
  have h1 : sizeOf (children.filter
      (fun nc => !startsWithDot nc.1 && !exclude_dirnames.contains nc.1))
      ≤ sizeOf children := by
    induction children with
    | nil => simp [List.filter]
    | cons a l ih =>
      simp only [List.filter]
      cases (!startsWithDot a.1 && !exclude_dirnames.contains a.1) <;>
        simp only [List.cons.sizeOf_spec] <;> omega
  simp only [Dir.mk.sizeOf_spec]
  omega

/-- Embedding of the fan-out of `fetch_remotes_in_subfolders`
(git_fetch_all.py lines 96-106): one recursive walk per eligible child
directory, awaited together (`asyncio.gather` propagates the first raised
error); each recursive call gets budget `recurse - 1` and an empty
`exclude_dirnames` list. -/
def gatherSubfolders (folders : List (String × Dir)) (path : DirPath)
    (recurse : Int) (include_remotes exclude_remotes : Option (List String)) :
    Except PyErr (List ResultSet) :=
  match folders with
  | [] => .ok []
  | (name, child) :: rest =>
    match fetch_remotes_in_subfolders child (path ++ [name]) (recurse - 1)
        include_remotes exclude_remotes [] with
    | .error e => .error e
    | .ok r =>
      match gatherSubfolders rest path recurse include_remotes exclude_remotes with
      | .error e => .error e
      | .ok rs => .ok (r :: rs)
termination_by sizeOf folders
decreasing_by
  · simp only [List.cons.sizeOf_spec, Prod.mk.sizeOf_spec]
    omega
  · simp only [List.cons.sizeOf_spec]
    omega

end

/-- The directory tree contains no repository root anywhere: the root does
not probe as a repository and every child subtree satisfies the same. -/
inductive NoRepos : Dir → Prop where
  | mk : ∀ children : List (String × Dir),
      (∀ nc ∈ children, NoRepos nc.2) → NoRepos (.mk none children)

mutual

/-- The walk of `fetch_remotes_in_subfolders` with its `recurse == 0` test
removed: descent is limited only by the tree itself.  Its totality as a
Lean function shows that so restricted a walk still terminates on every
finite directory tree.  It is the comparison point for the claim that a
negative budget never halts descent. -/
def walkUnbounded (d : Dir) (path : DirPath)
    (include_remotes exclude_remotes : Option (List String))
    (exclude_dirnames : List String) : Except PyErr ResultSet :=
  match d with
  | .mk (some repo) _children =>
    match fetch_single_repo repo include_remotes exclude_remotes with
    | .error e => .error e
    | .ok result => .ok (dictOfList (result.map (fun rs => ((path, rs.1), rs.2))))
  | .mk none children =>
    let folders := children.filter
      (fun nc => !startsWithDot nc.1 && !exclude_dirnames.contains nc.1)
    match gatherUnbounded folders path include_remotes exclude_remotes with
    | .error e => .error e
    | .ok subfolder_results =>
      .ok (subfolder_results.foldl (fun fetched r => dictUnion fetched r) [])
termination_by sizeOf d
decreasing_by
  have h1 : sizeOf (children.filter
      (fun nc => !startsWithDot nc.1 && !exclude_dirnames.contains nc.1))
      ≤ sizeOf children := by
    induction children with
    | nil => simp [List.filter]
    | cons a l ih =>
      simp only [List.filter]
      cases (!startsWithDot a.1 && !exclude_dirnames.contains a.1) <;>
        simp only [List.cons.sizeOf_spec] <;> omega
  simp only [Dir.mk.sizeOf_spec]
  omega

/-- The fan-out of `walkUnbounded` over the eligible child directories. -/
def gatherUnbounded (folders : List (String × Dir)) (path : DirPath)
    (include_remotes exclude_remotes : Option (List String)) :
    Except PyErr (List ResultSet) :=
  match folders with
  | [] => .ok []
  | (name, child) :: rest =>
    match walkUnbounded child (path ++ [name]) include_remotes exclude_remotes [] with
    | .error e => .error e
    | .ok r =>
      match gatherUnbounded rest path include_remotes exclude_remotes with
      | .error e => .error e
      | .ok rs => .ok (r :: rs)
termination_by sizeOf folders
decreasing_by
  · simp only [List.cons.sizeOf_spec, Prod.mk.sizeOf_spec]
    omega
  · simp only [List.cons.sizeOf_spec]
    omega

end

/-! ### Lemmas about the Python dict model -/

theorem mem_dictKeys {K V : Type} {d : List (K × V)} {k : K} :
    k ∈ dictKeys d ↔ ∃ kv ∈ d, kv.1 = k := by
  simp [dictKeys]

theorem dictKeys_append {K V : Type} (a b : List (K × V)) :
    dictKeys (a ++ b) = dictKeys a ++ dictKeys b := by
  simp [dictKeys]

theorem dictKeys_cons {K V : Type} (kv : K × V) (d : List (K × V)) :
    dictKeys (kv :: d) = kv.1 :: dictKeys d := rfl

theorem dictInsert_not_mem {K V : Type} [DecidableEq K] {d : List (K × V)} {k : K}
    (h : k ∉ dictKeys d) (v : V) : dictInsert d k v = d ++ [(k, v)] := by
  unfold dictInsert
  rw [if_neg]
  simp only [List.any_eq_true, decide_eq_true_eq]
  rw [mem_dictKeys] at h
  exact h

theorem dictKeys_dictInsert_mem {K V : Type} [DecidableEq K] {d : List (K × V)} {k : K}
    (h : k ∈ dictKeys d) (v : V) : dictKeys (dictInsert d k v) = dictKeys d := by
  unfold dictInsert
  rw [if_pos]
  · simp only [dictKeys, List.map_map]
    apply List.map_congr_left
    intro kv _
    by_cases hk : kv.1 = k <;> simp [hk]
  · rw [mem_dictKeys] at h
    obtain ⟨kv, hkv, hk⟩ := h
    simp only [List.any_eq_true, decide_eq_true_eq]
    exact ⟨kv, hkv, hk⟩

theorem mem_dictKeys_dictInsert {K V : Type} [DecidableEq K] {d : List (K × V)}
    {k k' : K} {v : V} (h : k' ∈ dictKeys (dictInsert d k v)) :
    k' ∈ dictKeys d ∨ k' = k := by
  by_cases hk : k ∈ dictKeys d
  · rw [dictKeys_dictInsert_mem hk] at h
    exact Or.inl h
  · rw [dictInsert_not_mem hk, dictKeys_append] at h
    rcases List.mem_append.mp h with h1 | h1
    · exact Or.inl h1
    · right
      simpa [dictKeys] using h1

theorem dictKeys_dictInsert_nodup {K V : Type} [DecidableEq K] {d : List (K × V)}
    (h : (dictKeys d).Nodup) (k : K) (v : V) :
    (dictKeys (dictInsert d k v)).Nodup := by
  by_cases hk : k ∈ dictKeys d
  · rw [dictKeys_dictInsert_mem hk]
    exact h
  · rw [dictInsert_not_mem hk, dictKeys_append]
    simp only [List.nodup_append, dictKeys, List.map_singleton, List.nodup_singleton,
      List.disjoint_singleton]
    exact ⟨h, by simp, fun hmem => hk hmem⟩

theorem dictUnion_keys_nodup {K V : Type} [DecidableEq K] {a : List (K × V)}
    (h : (dictKeys a).Nodup) (b : List (K × V)) :
    (dictKeys (dictUnion a b)).Nodup := by
  unfold dictUnion
  induction b generalizing a with
  | nil => exact h
  | cons kv rest ih =>
    simp only [List.foldl_cons]
    exact ih (dictKeys_dictInsert_nodup h kv.1 kv.2)

theorem dictOfList_eq_dictUnion_nil {K V : Type} [DecidableEq K] (l : List (K × V)) :
    dictOfList l = dictUnion [] l := rfl

theorem dictOfList_keys_nodup {K V : Type} [DecidableEq K] (l : List (K × V)) :
    (dictKeys (dictOfList l)).Nodup := by
  rw [dictOfList_eq_dictUnion_nil]
  exact dictUnion_keys_nodup (by simp [dictKeys]) l

theorem dictUnion_disjoint {K V : Type} [DecidableEq K] {a b : List (K × V)}
    (hb : (dictKeys b).Nodup) (hd : ∀ k ∈ dictKeys b, k ∉ dictKeys a) :
    dictUnion a b = a ++ b := by
  unfold dictUnion
  induction b generalizing a with
  | nil => simp
  | cons kv rest ih =>
    simp only [List.foldl_cons]
    have hk : kv.1 ∉ dictKeys a := hd kv.1 (by simp [dictKeys])
    rw [dictInsert_not_mem hk]
    rw [dictKeys_cons] at hb hd
    have hb' := hb.of_cons
    have hhead : kv.1 ∉ dictKeys rest := (List.nodup_cons.mp hb).1
    rw [ih hb' ?_]
    · simp
    · intro k hkr
      rw [dictKeys_append]
      simp only [List.mem_append, dictKeys, List.map_singleton, List.mem_singleton]
      rintro (hka | hkk)
      · exact hd k (List.mem_cons_of_mem _ hkr) hka
      · exact hhead (hkk ▸ hkr)

theorem dictOfList_nodup_id {K V : Type} [DecidableEq K] {l : List (K × V)}
    (h : (dictKeys l).Nodup) : dictOfList l = l := by
  rw [dictOfList_eq_dictUnion_nil, dictUnion_disjoint h (by simp [dictKeys])]
  simp

theorem dictLookup_eq_none {K V : Type} [DecidableEq K] {d : List (K × V)} {k : K} :
    dictLookup d k = none ↔ k ∉ dictKeys d := by
  constructor
  · intro h hk
    rw [mem_dictKeys] at hk
    obtain ⟨kv, hkv, rfl⟩ := hk
    simp only [dictLookup, Option.map_eq_none', List.find?_eq_none,
      decide_eq_true_eq] at h
    exact h kv hkv rfl
  · intro h
    simp only [dictLookup, Option.map_eq_none', List.find?_eq_none, decide_eq_true_eq]
    intro kv hkv hk
    exact h (mem_dictKeys.mpr ⟨kv, hkv, hk⟩)

theorem dictLookup_append_left {K V : Type} [DecidableEq K] {a : List (K × V)}
    {k : K} {v : V} (h : dictLookup a k = some v) (b : List (K × V)) :
    dictLookup (a ++ b) k = some v := by
  simp only [dictLookup] at h ⊢
  rw [List.find?_append]
  obtain ⟨kv, hkv, hv⟩ := Option.map_eq_some'.mp h
  rw [hkv]
  simp [hv]

theorem dictLookup_append_right {K V : Type} [DecidableEq K] {a : List (K × V)}
    {k : K} (h : k ∉ dictKeys a) (b : List (K × V)) :
    dictLookup (a ++ b) k = dictLookup b k := by
  have hnone : dictLookup a k = none := dictLookup_eq_none.mpr h
  simp only [dictLookup, Option.map_eq_none'] at hnone
  simp only [dictLookup]
  rw [List.find?_append, hnone, Option.none_or]

theorem dictLookup_cons_self {K V : Type} [DecidableEq K] (k : K) (v : V)
    (d : List (K × V)) : dictLookup ((k, v) :: d) k = some v := by
  simp [dictLookup, List.find?_cons_of_pos]

theorem dictLookup_cons_ne {K V : Type} [DecidableEq K] {k k' : K} (h : k' ≠ k)
    (v : V) (d : List (K × V)) : dictLookup ((k', v) :: d) k = dictLookup d k := by
  simp only [dictLookup]
  rw [List.find?_cons_of_neg]
  simp [h]

theorem mem_dictKeys_dictUnion {K V : Type} [DecidableEq K] {a b : List (K × V)}
    {k : K} (h : k ∈ dictKeys (dictUnion a b)) :
    k ∈ dictKeys a ∨ k ∈ dictKeys b := by
  unfold dictUnion at h
  induction b generalizing a with
  | nil => exact Or.inl h
  | cons kv rest ih =>
    simp only [List.foldl_cons] at h
    rcases ih h with h1 | h1
    · rcases mem_dictKeys_dictInsert h1 with h2 | h2
      · exact Or.inl h2
      · right
        simp [dictKeys_cons, h2]
    · right
      simp [dictKeys_cons, h1]

/-! ### Unfolding lemmas for the walk -/

theorem walk_repo_eq (repo : Repo) (children : List (String × Dir)) (path : DirPath)
    (recurse : Int) (incl exc : Option (List String)) (excl : List String) :
    fetch_remotes_in_subfolders (.mk (some repo) children) path recurse incl exc excl =
      match fetch_single_repo repo incl exc with
      | .error e => .error e
      | .ok result =>
        .ok (dictOfList (result.map (fun rs => ((path, rs.1), rs.2)))) := by
  rw [fetch_remotes_in_subfolders]

theorem walk_zero_eq (children : List (String × Dir)) (path : DirPath)
    (incl exc : Option (List String)) (excl : List String) :
    fetch_remotes_in_subfolders (.mk none children) path 0 incl exc excl = .ok [] := by
  rw [fetch_remotes_in_subfolders]
  simp

theorem walk_notrepo_eq (children : List (String × Dir)) (path : DirPath)
    (recurse : Int) (incl exc : Option (List String)) (excl : List String)
    (h : recurse ≠ 0) :
    fetch_remotes_in_subfolders (.mk none children) path recurse incl exc excl =
      match gatherSubfolders (children.filter
          (fun nc => !startsWithDot nc.1 && !excl.contains nc.1)) path recurse incl exc with
      | .error e => .error e
      | .ok rs => .ok (rs.foldl (fun fetched r => dictUnion fetched r) []) := by
  rw [fetch_remotes_in_subfolders]
  simp [h]

theorem gather_nil_eq (path : DirPath) (recurse : Int)
    (incl exc : Option (List String)) :
    gatherSubfolders [] path recurse incl exc = .ok [] := by
  rw [gatherSubfolders]

theorem gather_cons_eq (name : String) (child : Dir) (rest : List (String × Dir))
    (path : DirPath) (recurse : Int) (incl exc : Option (List String)) :
    gatherSubfolders ((name, child) :: rest) path recurse incl exc =
      match fetch_remotes_in_subfolders child (path ++ [name]) (recurse - 1)
          incl exc [] with
      | .error e => .error e
      | .ok r =>
        match gatherSubfolders rest path recurse incl exc with
        | .error e => .error e
        | .ok rs => .ok (r :: rs) := by
  rw [gatherSubfolders]

theorem walkUnbounded_repo_eq (repo : Repo) (children : List (String × Dir))
    (path : DirPath) (incl exc : Option (List String)) (excl : List String) :
    walkUnbounded (.mk (some repo) children) path incl exc excl =
      match fetch_single_repo repo incl exc with
      | .error e => .error e
      | .ok result =>
        .ok (dictOfList (result.map (fun rs => ((path, rs.1), rs.2)))) := by
  rw [walkUnbounded]

theorem walkUnbounded_notrepo_eq (children : List (String × Dir)) (path : DirPath)
    (incl exc : Option (List String)) (excl : List String) :
    walkUnbounded (.mk none children) path incl exc excl =
      match gatherUnbounded (children.filter
          (fun nc => !startsWithDot nc.1 && !excl.contains nc.1)) path incl exc with
      | .error e => .error e
      | .ok rs => .ok (rs.foldl (fun fetched r => dictUnion fetched r) []) := by
  rw [walkUnbounded]

theorem gatherUnbounded_nil_eq (path : DirPath) (incl exc : Option (List String)) :
    gatherUnbounded [] path incl exc = .ok [] := by
  rw [gatherUnbounded]

theorem gatherUnbounded_cons_eq (name : String) (child : Dir)
    (rest : List (String × Dir)) (path : DirPath)
    (incl exc : Option (List String)) :
    gatherUnbounded ((name, child) :: rest) path incl exc =
      match walkUnbounded child (path ++ [name]) incl exc [] with
      | .error e => .error e
      | .ok r =>
        match gatherUnbounded rest path incl exc with
        | .error e => .error e
        | .ok rs => .ok (r :: rs) := by
  rw [gatherUnbounded]

/-! ### Lemmas about fetch_remote, collectResults and fetch_single_repo -/

theorem fetch_remote_error_iff (r : Remote) (e : PyErr) :
    fetch_remote r = .error e ↔ r.fetch = .error e := by
  unfold fetch_remote
  cases r.fetch <;> simp

theorem fetch_remote_ok (r : Remote) (infos : List Nat) (h : r.fetch = .ok infos) :
    fetch_remote r = .ok (!(infos.all fun info => (info >>> 2) % 2 != 0)) := by
  unfold fetch_remote
  rw [h]

theorem collectResults_all_exceptions (l : List (String × Except PyErr Bool))
    (h : ∀ p ∈ l, ∀ e, p.2 = .error e → e.isException = true) :
    collectResults l = .ok (l.map (fun p => (p.1,
      match p.2 with
      | .ok b => FetchResult.success b
      | .error e => FetchResult.failure e))) := by
  induction l with
  | nil => rfl
  | cons p rest ih =>
    obtain ⟨name, v⟩ := p
    have hrest := ih (fun q hq => h q (List.mem_cons_of_mem _ hq))
    cases v with
    | ok b => simp [collectResults, hrest]
    | error e =>
      have he : e.isException = true := h (name, .error e) (List.mem_cons_self _ _) e rfl
      simp [collectResults, he, hrest]

theorem collectResults_first_base (l1 l2 : List (String × Except PyErr Bool))
    (name : String) (e : PyErr)
    (h1 : ∀ p ∈ l1, ∀ e2, p.2 = .error e2 → e2.isException = true)
    (he : e.isException = false) :
    collectResults (l1 ++ (name, Except.error e) :: l2) = .error e := by
  induction l1 with
  | nil => simp [collectResults, he]
  | cons p rest ih =>
    obtain ⟨n, v⟩ := p
    have hrest := ih (fun q hq => h1 q (List.mem_cons_of_mem _ hq))
    cases v with
    | ok b => simp [collectResults, hrest]
    | error e2 =>
      have h2 : e2.isException = true := h1 (n, .error e2) (List.mem_cons_self _ _) e2 rfl
      simp [collectResults, h2, hrest]

theorem filterRemotes_sublist (remotes : List Remote)
    (incl exc : Option (List String)) :
    (filterRemotes remotes incl exc).Sublist remotes := by
  unfold filterRemotes
  cases incl with
  | none =>
    cases exc with
    | none => exact List.Sublist.refl _
    | some names => exact List.filter_sublist _
  | some inames =>
    cases exc with
    | none => exact List.filter_sublist _
    | some names => exact (List.filter_sublist _).trans (List.filter_sublist _)

theorem filterRemotes_names_nodup {remotes : List Remote}
    (h : (remotes.map Remote.name).Nodup) (incl exc : Option (List String)) :
    ((filterRemotes remotes incl exc).map Remote.name).Nodup :=
  List.Nodup.sublist ((filterRemotes_sublist remotes incl exc).map Remote.name) h

theorem fetch_single_repo_eq (repo : Repo) (incl exc : Option (List String))
    (hnodup : ((filterRemotes repo.remotes incl exc).map Remote.name).Nodup)
    (hexc : ∀ r ∈ filterRemotes repo.remotes incl exc, ∀ e, r.fetch = .error e →
      e.isException = true) :
    fetch_single_repo repo incl exc = .ok
      ((filterRemotes repo.remotes incl exc).map (fun r => (r.name,
        match fetch_remote r with
        | .ok b => FetchResult.success b
        | .error e => FetchResult.failure e))) := by
  unfold fetch_single_repo
  dsimp only
  have hkeys : (dictKeys ((filterRemotes repo.remotes incl exc).map
      (fun r => (r.name, fetch_remote r)))).Nodup := by
    simpa [dictKeys, List.map_map, Function.comp] using hnodup
  rw [dictOfList_nodup_id hkeys]
  rw [collectResults_all_exceptions]
  · simp only [List.map_map]
    rfl
  · intro p hp e hpe
    simp only [List.mem_map] at hp
    obtain ⟨r, hr, rfl⟩ := hp
    exact hexc r hr e ((fetch_remote_error_iff r e).mp hpe)

/-! ### Key invariants of the walk results -/

theorem foldl_dictUnion_keys_nodup {K V : Type} [DecidableEq K]
    (rs : List (List (K × V))) (init : List (K × V))
    (h : (dictKeys init).Nodup) :
    (dictKeys (rs.foldl (fun a b => dictUnion a b) init)).Nodup := by
  induction rs generalizing init with
  | nil => exact h
  | cons r rest ih => exact ih _ (dictUnion_keys_nodup h r)

theorem mem_dictKeys_foldl_dictUnion {K V : Type} [DecidableEq K]
    {rs : List (List (K × V))} {init : List (K × V)} {k : K}
    (h : k ∈ dictKeys (rs.foldl (fun a b => dictUnion a b) init)) :
    k ∈ dictKeys init ∨ ∃ r ∈ rs, k ∈ dictKeys r := by
  induction rs generalizing init with
  | nil => exact Or.inl h
  | cons r rest ih =>
    rcases ih h with h1 | h1
    · rcases mem_dictKeys_dictUnion h1 with h2 | h2
      · exact Or.inl h2
      · exact Or.inr ⟨r, List.mem_cons_self _ _, h2⟩
    · obtain ⟨r2, hr2, hk⟩ := h1
      exact Or.inr ⟨r2, List.mem_cons_of_mem _ hr2, hk⟩

theorem walk_keys_nodup (d : Dir) (path : DirPath) (recurse : Int)
    (incl exc : Option (List String)) (excl : List String) (res : ResultSet)
    (h : fetch_remotes_in_subfolders d path recurse incl exc excl = .ok res) :
    (dictKeys res).Nodup := by
  match d with
  | .mk (some repo) children =>
    rw [walk_repo_eq] at h
    cases hf : fetch_single_repo repo incl exc with
    | error e =>
      rw [hf] at h
      simp at h
    | ok result =>
      rw [hf] at h
      simp only [Except.ok.injEq] at h
      rw [← h]
      exact dictOfList_keys_nodup _
  | .mk none children =>
    by_cases hr : recurse = 0
    · subst hr
      rw [walk_zero_eq] at h
      simp only [Except.ok.injEq] at h
      rw [← h]
      simp [dictKeys]
    · rw [walk_notrepo_eq _ _ _ _ _ _ hr] at h
      cases hg : gatherSubfolders (children.filter
          (fun nc => !startsWithDot nc.1 && !excl.contains nc.1)) path recurse incl exc with
      | error e =>
        rw [hg] at h
        simp at h
      | ok rs =>
        rw [hg] at h
        simp only [Except.ok.injEq] at h
        rw [← h]
        exact foldl_dictUnion_keys_nodup rs [] (by simp [dictKeys])

theorem mem_dictKeys_dictOfList {K V : Type} [DecidableEq K] {l : List (K × V)}
    {k : K} (h : k ∈ dictKeys (dictOfList l)) : k ∈ dictKeys l := by
  rw [dictOfList_eq_dictUnion_nil] at h
  rcases mem_dictKeys_dictUnion h with h1 | h1
  · simp [dictKeys] at h1
  · exact h1

theorem gather_ok_mem (folders : List (String × Dir)) (path : DirPath)
    (recurse : Int) (incl exc : Option (List String)) (rs : List ResultSet)
    (h : gatherSubfolders folders path recurse incl exc = .ok rs) :
    ∀ r ∈ rs, ∃ nc ∈ folders,
      fetch_remotes_in_subfolders nc.2 (path ++ [nc.1]) (recurse - 1) incl exc []
        = .ok r := by
  induction folders generalizing rs with
  | nil =>
    rw [gather_nil_eq] at h
    simp only [Except.ok.injEq] at h
    rw [← h]
    intro r hr
    cases hr
  | cons nc rest ih =>
    obtain ⟨name, child⟩ := nc
    rw [gather_cons_eq] at h
    cases hw : fetch_remotes_in_subfolders child (path ++ [name]) (recurse - 1)
        incl exc [] with
    | error e =>
      rw [hw] at h
      simp at h
    | ok r1 =>
      rw [hw] at h
      cases hg : gatherSubfolders rest path recurse incl exc with
      | error e =>
        rw [hg] at h
        simp at h
      | ok rs1 =>
        rw [hg] at h
        simp only [Except.ok.injEq] at h
        rw [← h]
        intro r hr
        rcases List.mem_cons.mp hr with rfl | hr1
        · exact ⟨(name, child), List.mem_cons_self _ _, hw⟩
        · obtain ⟨nc2, hnc2, hnc3⟩ := ih rs1 hg r hr1
          exact ⟨nc2, List.mem_cons_of_mem _ hnc2, hnc3⟩

theorem walk_path_prefix : ∀ (n : Nat) (d : Dir), sizeOf d ≤ n →
    ∀ (path : DirPath) (recurse : Int) (incl exc : Option (List String))
      (excl : List String) (res : ResultSet),
    fetch_remotes_in_subfolders d path recurse incl exc excl = .ok res →
    ∀ k ∈ dictKeys res, path <+: k.1 := by
  intro n
  induction n with
  | zero =>
    intro d hd
    exfalso
    cases d with
    | mk r c =>
      simp only [Dir.mk.sizeOf_spec, Nat.le_zero] at hd
      omega
  | succ n ih =>
    intro d hd path recurse incl exc excl res h k hk
    match d with
    | .mk (some repo) children =>
      rw [walk_repo_eq] at h
      cases hf : fetch_single_repo repo incl exc with
      | error e =>
        rw [hf] at h
        simp at h
      | ok result =>
        rw [hf] at h
        simp only [Except.ok.injEq] at h
        rw [← h] at hk
        have hk2 := mem_dictKeys_dictOfList hk
        simp only [dictKeys, List.map_map, List.mem_map, Function.comp] at hk2
        obtain ⟨rs, _, hrs⟩ := hk2
        rw [← hrs]
    | .mk none children =>
      by_cases hr : recurse = 0
      · subst hr
        rw [walk_zero_eq] at h
        simp only [Except.ok.injEq] at h
        rw [← h] at hk
        simp [dictKeys] at hk
      · rw [walk_notrepo_eq _ _ _ _ _ _ hr] at h
        cases hg : gatherSubfolders (children.filter
            (fun nc => !startsWithDot nc.1 && !excl.contains nc.1))
            path recurse incl exc with
        | error e =>
          rw [hg] at h
          simp at h
        | ok rs =>
          rw [hg] at h
          simp only [Except.ok.injEq] at h
          rw [← h] at hk
          rcases mem_dictKeys_foldl_dictUnion hk with h1 | h1
          · simp [dictKeys] at h1
          · obtain ⟨r, hr1, hkr⟩ := h1
            obtain ⟨nc, hnc, hw⟩ := gather_ok_mem _ _ _ _ _ _ hg r hr1
            obtain ⟨nm, child⟩ := nc
            have hsz : sizeOf child ≤ n := by
              have h1 : (nm, child) ∈ children := List.mem_of_mem_filter hnc
              have h2 : sizeOf (nm, child) < sizeOf children :=
                List.sizeOf_lt_of_mem h1
              simp only [Prod.mk.sizeOf_spec] at h2
              simp only [Dir.mk.sizeOf_spec] at hd
              omega
            have hpre := ih child hsz (path ++ [nm]) (recurse - 1) incl exc []
              r hw k hkr
            exact (List.prefix_append path [nm]).trans hpre

/-! ### The claims -/

/-- C2: for every indicator list returned by one fetch call, the
single-remote fetch yields up-to-date (boolean `false`) iff every
indicator's flags have the up-to-date bit (bit 2, extracted as
`(flags >> 2) % 2`), yields updated (boolean `true`) iff at least one
indicator lacks that bit, and yields up-to-date for the empty indicator
list. -/
theorem C2_up_to_date_iff (remote : Remote) (infos : List Nat)
    (h : remote.fetch = .ok infos) :
    (fetch_remote remote = .ok false ↔ ∀ f ∈ infos, (f >>> 2) % 2 = 1) ∧
    (fetch_remote remote = .ok true ↔ ∃ f ∈ infos, (f >>> 2) % 2 ≠ 1) ∧
    (infos = [] → fetch_remote remote = .ok false) := by
  rw [fetch_remote_ok remote infos h]
  have hmod : ∀ f : Nat, (((f >>> 2) % 2 != 0) = true) ↔ ((f >>> 2) % 2 = 1) := by
    intro f
    rw [bne_iff_ne]
    omega
  refine ⟨?_, ?_, ?_⟩
  · simp only [Except.ok.injEq, Bool.not_eq_false', List.all_eq_true]
    constructor
    · intro h1 f hf
      exact (hmod f).mp (h1 f hf)
    · intro h1 f hf
      exact (hmod f).mpr (h1 f hf)
  · simp only [Except.ok.injEq, Bool.not_eq_true', List.all_eq_false]
    constructor
    · rintro ⟨f, hf, hfl⟩
      refine ⟨f, hf, ?_⟩
      intro hc
      exact hfl ((hmod f).mpr hc)
    · rintro ⟨f, hf, hfl⟩
      refine ⟨f, hf, ?_⟩
      intro hc
      exact hfl ((hmod f).mp hc)
  · intro h1
    subst h1
    rfl

/-- Witness for C2: a concrete fetch whose second reference info lacks the
up-to-date bit takes the updated outcome. -/
theorem C2_witness :
    (Remote.mk "origin" (.ok [4, 0])).fetch = .ok [4, 0] ∧
    (fetch_remote (Remote.mk "origin" (.ok [4, 0])) = .ok true ↔
      ∃ f ∈ [4, 0], (f >>> 2) % 2 ≠ 1) :=
  ⟨rfl, (C2_up_to_date_iff (Remote.mk "origin" (.ok [4, 0])) [4, 0] rfl).2.1⟩

/-- C6: a remote survives the include/exclude filters exactly when the
include list (when given) names it and the exclude list (when given) does
not; with no lists given every remote survives, and a remote named in both
lists is ultimately excluded. -/
theorem C6_include_then_exclude (remotes : List Remote) (incl excl : List String) :
    (∀ r, r ∈ filterRemotes remotes (some incl) (some excl) ↔
      r ∈ remotes ∧ r.name ∈ incl ∧ r.name ∉ excl) ∧
    (filterRemotes remotes none none = remotes) ∧
    (∀ r ∈ remotes, r.name ∈ incl → r.name ∈ excl →
      r ∉ filterRemotes remotes (some incl) (some excl)) := by
  have hmem : ∀ r, r ∈ filterRemotes remotes (some incl) (some excl) ↔
      r ∈ remotes ∧ r.name ∈ incl ∧ r.name ∉ excl := by
    intro r
    unfold filterRemotes
    simp [List.mem_filter, and_assoc, List.elem_iff]
    tauto
  refine ⟨hmem, rfl, ?_⟩
  intro r _ hincl hexcl hc
  exact (((hmem r).mp hc).2.2) hexcl

/-- Witness for C6: with remotes origin and backup, a remote named in both
the include and the exclude list does not survive. -/
theorem C6_witness :
    (Remote.mk "backup" (.ok []) ∈
      [Remote.mk "origin" (.ok []), Remote.mk "backup" (.ok [])]) ∧
    ("backup" ∈ ["origin", "backup"]) ∧ ("backup" ∈ ["backup"]) ∧
    (Remote.mk "backup" (.ok []) ∉
      filterRemotes [Remote.mk "origin" (.ok []), Remote.mk "backup" (.ok [])]
        (some ["origin", "backup"]) (some ["backup"])) :=
  ⟨by simp, by simp, by simp,
    (C6_include_then_exclude
        [Remote.mk "origin" (.ok []), Remote.mk "backup" (.ok [])]
        ["origin", "backup"] ["backup"]).2.2
      (Remote.mk "backup" (.ok [])) (by simp) (by simp) (by simp)⟩

/-- C9: a walk invoked on a directory that is a repository root probes and
fetches it for every starting path and every exclusion list — the hidden
marker and the excluded-dirname filters never apply to the directory the
walk is invoked on — while a hidden-named directory reached as an
enumerated child is skipped entirely. -/
theorem C9_root_always_probed (repo : Repo) (children : List (String × Dir))
    (path : DirPath) (recurse : Int) (incl exc : Option (List String))
    (excl : List String) (n : String) (c : Dir)
    (hn : startsWithDot n = true) :
    (fetch_remotes_in_subfolders (.mk (some repo) children) path recurse incl exc excl
      = (fetch_single_repo repo incl exc).map
          (fun result => dictOfList (result.map (fun rs => ((path, rs.1), rs.2))))) ∧
    (∀ r : Int,
      fetch_remotes_in_subfolders (.mk none [(n, c)]) path r incl exc excl = .ok []) := by
  constructor
  · rw [walk_repo_eq]
    cases fetch_single_repo repo incl exc <;> rfl
  · intro r
    by_cases hr : r = 0
    · subst hr
      exact walk_zero_eq [(n, c)] path incl exc excl
    · rw [walk_notrepo_eq _ _ _ _ _ _ hr]
      have hfilter : ([(n, c)].filter
          (fun nc => !startsWithDot nc.1 && !excl.contains nc.1)) = [] := by
        simp [List.filter, hn]
      rw [hfilter, gather_nil_eq]
      rfl

/-- Witness for C9: a repository directory reached as a hidden-named child
is skipped, while the walk invoked on a repository root itself runs the
fetch for an arbitrary exclusion list. -/
theorem C9_witness :
    (startsWithDot ".git" = true) ∧
    fetch_remotes_in_subfolders
      (.mk none [(".git", .mk (some (Repo.mk [])) [])]) [] 3 none none ["x"]
      = .ok [] :=
  ⟨by decide,
    (C9_root_always_probed (Repo.mk []) [] [] 3 none none ["x"] ".git"
        (.mk (some (Repo.mk [])) []) (by decide)).2 3⟩

theorem dictKeys_pathed (path : DirPath) (l : List (String × FetchResult)) :
    dictKeys (l.map (fun rs => ((path, rs.1), rs.2)))
      = (dictKeys l).map (fun nm => (path, nm)) := by
  simp only [dictKeys, List.map_map]
  rfl

theorem pathed_keys_nodup (path : DirPath) {l : List (String × FetchResult)}
    (h : (dictKeys l).Nodup) :
    (dictKeys (l.map (fun rs => ((path, rs.1), rs.2)))).Nodup := by
  rw [dictKeys_pathed]
  refine List.Nodup.map ?_ h
  intro a b hab
  exact ((Prod.mk.injEq _ _ _ _).mp hab).2

theorem dictOfList_pathed_id (path : DirPath) {l : List (String × FetchResult)}
    (h : (dictKeys l).Nodup) :
    dictOfList (l.map (fun rs => ((path, rs.1), rs.2)))
      = l.map (fun rs => ((path, rs.1), rs.2)) :=
  dictOfList_nodup_id (pathed_keys_nodup path h)

/-- C4: with a non-empty excluded-dirname list, an immediate child of the
top-level root whose name is in the list is neither probed nor descended
into (for any subtree there and any budget the walk of that child yields
nothing), while the same name one level deeper is reached through
recursion with an empty exclusion list and is walked normally. -/
theorem C4_exclusion_top_level_only (n m : String) (c : Dir) (path : DirPath)
    (recurse : Int) (incl exc : Option (List String)) (excl : List String)
    (hn : n ∈ excl) (hm1 : startsWithDot m = false) (hm2 : m ∉ excl)
    (hn1 : startsWithDot n = false)
    (hr : recurse ≠ 0) (hr2 : recurse - 1 ≠ 0) :
    (∀ (c2 : Dir) (r : Int),
      fetch_remotes_in_subfolders (.mk none [(n, c2)]) path r incl exc excl
        = .ok []) ∧
    (fetch_remotes_in_subfolders (.mk none [(m, Dir.mk none [(n, c)])]) path recurse
        incl exc excl
      = fetch_remotes_in_subfolders c (path ++ [m, n]) (recurse - 2) incl exc []) := by
  constructor
  · intro c2 r
    by_cases hr0 : r = 0
    · subst hr0
      exact walk_zero_eq [(n, c2)] path incl exc excl
    · rw [walk_notrepo_eq _ _ _ _ _ _ hr0]
      have hfilter : ([(n, c2)].filter
          (fun nc => !startsWithDot nc.1 && !excl.contains nc.1)) = [] := by
        simp [List.filter, hn]
      rw [hfilter, gather_nil_eq]
      rfl
  · rw [walk_notrepo_eq _ _ _ _ _ _ hr]
    have hfilter : ([(m, Dir.mk none [(n, c)])].filter
        (fun nc => !startsWithDot nc.1 && !excl.contains nc.1))
        = [(m, Dir.mk none [(n, c)])] := by
      simp [List.filter, hm1, hm2]
    rw [hfilter, gather_cons_eq]
    rw [walk_notrepo_eq _ _ _ _ _ _ hr2]
    have hfilter2 : ([(n, c)].filter
        (fun nc => !startsWithDot nc.1 && !([] : List String).contains nc.1))
        = [(n, c)] := by
      simp [List.filter, hn1]
    rw [hfilter2, gather_cons_eq, gather_nil_eq]
    have hpath : path ++ [m] ++ [n] = path ++ [m, n] := by simp
    have hrec : recurse - 1 - 1 = recurse - 2 := by omega
    rw [hpath, hrec]
    cases hc : fetch_remotes_in_subfolders c (path ++ [m, n]) (recurse - 2)
        incl exc [] with
    | error e => simp
    | ok rc =>
      have hnd := walk_keys_nodup c _ _ _ _ _ rc hc
      have h1 : dictUnion ([] : ResultSet) rc = rc := by
        rw [← dictOfList_eq_dictUnion_nil]
        exact dictOfList_nodup_id hnd
      simp [h1, gather_nil_eq]

/-- Witness for C4: the excluded name `skip` is pruned at the top level but
reached normally one level deeper. -/
theorem C4_witness :
    ("skip" ∈ ["skip"]) ∧
    fetch_remotes_in_subfolders
      (.mk none [("skip", .mk (some (Repo.mk [])) [])]) [] 3 none none ["skip"]
      = .ok [] ∧
    fetch_remotes_in_subfolders
      (.mk none [("sub", .mk none [("skip", .mk (some (Repo.mk [])) [])])])
      [] 3 none none ["skip"]
      = fetch_remotes_in_subfolders (.mk (some (Repo.mk [])) [])
          ["sub", "skip"] 1 none none [] := by
  have h := C4_exclusion_top_level_only "skip" "sub" (.mk (some (Repo.mk [])) [])
    [] 3 none none ["skip"] (by decide) (by decide) (by decide) (by decide)
    (by decide) (by decide)
  exact ⟨by decide, h.1 (.mk (some (Repo.mk [])) []) 3, h.2⟩

/-- C5: a directory that probes as a repository root returns immediately a
result set whose keys are exactly the pairs (path, remote name), one per
remote surviving the include/exclude filters, and its result never depends
on its children nor on the remaining recursion budget. -/
theorem C5_repo_returns_immediately (repo : Repo) (children : List (String × Dir))
    (path : DirPath) (recurse : Int) (incl exc : Option (List String))
    (excl : List String)
    (hnodup : (repo.remotes.map Remote.name).Nodup)
    (hexc : ∀ r ∈ filterRemotes repo.remotes incl exc, ∀ e, r.fetch = .error e →
      e.isException = true) :
    ∃ res,
      fetch_remotes_in_subfolders (.mk (some repo) children) path recurse incl exc excl
        = .ok res ∧
      dictKeys res = (filterRemotes repo.remotes incl exc).map (fun r => (path, r.name)) ∧
      res.length = (filterRemotes repo.remotes incl exc).length ∧
      (∀ (children2 : List (String × Dir)) (recurse2 : Int),
        fetch_remotes_in_subfolders (.mk (some repo) children2) path recurse2
            incl exc excl
          = fetch_remotes_in_subfolders (.mk (some repo) children) path recurse
              incl exc excl) := by
  have hfe := fetch_single_repo_eq repo incl exc
    (filterRemotes_names_nodup hnodup incl exc) hexc
  have hkeysl : dictKeys ((filterRemotes repo.remotes incl exc).map (fun r => (r.name,
      match fetch_remote r with
      | .ok b => FetchResult.success b
      | .error e => FetchResult.failure e)))
      = (filterRemotes repo.remotes incl exc).map Remote.name := by
    simp only [dictKeys, List.map_map]
    rfl
  have hlnodup : (dictKeys ((filterRemotes repo.remotes incl exc).map (fun r => (r.name,
      match fetch_remote r with
      | .ok b => FetchResult.success b
      | .error e => FetchResult.failure e)))).Nodup := by
    rw [hkeysl]
    exact filterRemotes_names_nodup hnodup incl exc
  refine ⟨((filterRemotes repo.remotes incl exc).map (fun r => (r.name,
      match fetch_remote r with
      | .ok b => FetchResult.success b
      | .error e => FetchResult.failure e))).map (fun rs => ((path, rs.1), rs.2)),
    ?_, ?_, ?_, ?_⟩
  · rw [walk_repo_eq, hfe]
    exact congrArg Except.ok (dictOfList_pathed_id path hlnodup)
  · rw [dictKeys_pathed, hkeysl, List.map_map]
    rfl
  · simp
  · intro children2 recurse2
    rw [walk_repo_eq, walk_repo_eq]

/-- Witness for C5: a repository with remotes origin and backup under an
exclude filter for backup yields exactly the origin key. -/
theorem C5_witness :
    ([Remote.mk "origin" (.ok [4]), Remote.mk "backup" (.ok [])].map
        Remote.name).Nodup ∧
    ∃ res,
      fetch_remotes_in_subfolders
        (.mk (some (Repo.mk [Remote.mk "origin" (.ok [4]),
          Remote.mk "backup" (.ok [])])) [("sub", .mk none [])])
        ["base"] 3 none (some ["backup"]) []
        = .ok res ∧
      dictKeys res = (filterRemotes
          [Remote.mk "origin" (.ok [4]), Remote.mk "backup" (.ok [])]
          none (some ["backup"])).map (fun r => (["base"], r.name)) ∧
      res.length = (filterRemotes
          [Remote.mk "origin" (.ok [4]), Remote.mk "backup" (.ok [])]
          none (some ["backup"])).length ∧
      (∀ (children2 : List (String × Dir)) (recurse2 : Int),
        fetch_remotes_in_subfolders
          (.mk (some (Repo.mk [Remote.mk "origin" (.ok [4]),
            Remote.mk "backup" (.ok [])])) children2)
          ["base"] recurse2 none (some ["backup"]) []
        = fetch_remotes_in_subfolders
          (.mk (some (Repo.mk [Remote.mk "origin" (.ok [4]),
            Remote.mk "backup" (.ok [])])) [("sub", .mk none [])])
          ["base"] 3 none (some ["backup"]) []) :=
  ⟨by decide,
    C5_repo_returns_immediately
      (Repo.mk [Remote.mk "origin" (.ok [4]), Remote.mk "backup" (.ok [])])
      [("sub", .mk none [])] ["base"] 3 none (some ["backup"]) []
      (by decide)
      (by
        intro r hr e he
        have hf : filterRemotes
            [Remote.mk "origin" (.ok [4]), Remote.mk "backup" (.ok [])]
            none (some ["backup"]) = [Remote.mk "origin" (.ok [4])] := rfl
        rw [hf] at hr
        simp only [List.mem_singleton] at hr
        subst hr
        simp at he)⟩

theorem foldl_dictUnion_all_nil {K V : Type} [DecidableEq K]
    (rs : List (List (K × V))) (h : ∀ r ∈ rs, r = []) (init : List (K × V)) :
    rs.foldl (fun a b => dictUnion a b) init = init := by
  induction rs generalizing init with
  | nil => rfl
  | cons r rest ih =>
    have hr : r = [] := h r (List.mem_cons_self _ _)
    subst hr
    exact ih (fun q hq => h q (List.mem_cons_of_mem _ hq)) init

theorem noRepos_walk_empty : ∀ (n : Nat) (d : Dir), sizeOf d ≤ n → NoRepos d →
    ∀ (path : DirPath) (recurse : Int) (incl exc : Option (List String))
      (excl : List String),
    fetch_remotes_in_subfolders d path recurse incl exc excl = .ok [] := by
  intro n
  induction n with
  | zero =>
    intro d hd
    exfalso
    cases d with
    | mk r c =>
      simp only [Dir.mk.sizeOf_spec, Nat.le_zero] at hd
      omega
  | succ n ih =>
    intro d hd hno path recurse incl exc excl
    cases hno with
    | mk children hch =>
      by_cases hr : recurse = 0
      · subst hr
        exact walk_zero_eq children path incl exc excl
      · rw [walk_notrepo_eq _ _ _ _ _ _ hr]
        have hsz : ∀ nc ∈ children.filter
            (fun nc => !startsWithDot nc.1 && !excl.contains nc.1),
            sizeOf nc.2 ≤ n := by
          intro nc hnc
          obtain ⟨nm, ch⟩ := nc
          have h1 := List.mem_of_mem_filter hnc
          have h2 := List.sizeOf_lt_of_mem h1
          simp only [Prod.mk.sizeOf_spec] at h2
          simp only [Dir.mk.sizeOf_spec] at hd
          simp only []
          omega
        have key : ∀ folders : List (String × Dir),
            (∀ nc ∈ folders, NoRepos nc.2) → (∀ nc ∈ folders, sizeOf nc.2 ≤ n) →
            gatherSubfolders folders path recurse incl exc
              = .ok (folders.map (fun _ => ([] : ResultSet))) := by
          intro folders
          induction folders with
          | nil =>
            intro _ _
            rw [gather_nil_eq]
            rfl
          | cons nc rest ihf =>
            intro hnr hsz2
            obtain ⟨nm, ch⟩ := nc
            rw [gather_cons_eq]
            rw [ih ch (hsz2 (nm, ch) (List.mem_cons_self _ _))
              (hnr (nm, ch) (List.mem_cons_self _ _)) (path ++ [nm]) (recurse - 1)
              incl exc []]
            rw [ihf (fun q hq => hnr q (List.mem_cons_of_mem _ hq))
              (fun q hq => hsz2 q (List.mem_cons_of_mem _ hq))]
            rfl
        rw [key _ (fun nc hnc => hch nc (List.mem_of_mem_filter hnc)) hsz]
        exact congrArg Except.ok (foldl_dictUnion_all_nil _ (by
          intro r hr2
          rw [List.mem_map] at hr2
          obtain ⟨_, _, hr3⟩ := hr2
          exact hr3.symm) [])

/-- C7: a walk with budget `0` of a root that is not itself a repository
returns the empty result set even when children contain repositories; and
a walk of a tree with no repositories anywhere returns the empty result
set for every budget value. -/
theorem C7_zero_budget_and_no_repos (d : Dir) (path : DirPath)
    (incl exc : Option (List String)) (excl : List String) :
    (d.repo = none → fetch_remotes_in_subfolders d path 0 incl exc excl = .ok []) ∧
    (NoRepos d → ∀ recurse : Int,
      fetch_remotes_in_subfolders d path recurse incl exc excl = .ok []) := by
  constructor
  · intro h0
    cases d with
    | mk r c =>
      simp only [Dir.repo] at h0
      subst h0
      exact walk_zero_eq c path incl exc excl
  · intro hno recurse
    exact noRepos_walk_empty (sizeOf d) d (le_refl _) hno path recurse incl exc excl

/-- Witness for C7: budget `0` over a non-repository root with a repository
child yields nothing, and a repository-free tree yields nothing at
budget `7`. -/
theorem C7_witness :
    ((Dir.mk none [("a", .mk (some (Repo.mk [Remote.mk "origin" (.ok [0])])) [])]).repo
      = none) ∧
    fetch_remotes_in_subfolders
      (.mk none [("a", .mk (some (Repo.mk [Remote.mk "origin" (.ok [0])])) [])])
      [] 0 none none [] = .ok [] ∧
    NoRepos (.mk none [("e", .mk none [])]) ∧
    fetch_remotes_in_subfolders (.mk none [("e", .mk none [])]) [] 7 none none []
      = .ok [] := by
  have hnr : NoRepos (Dir.mk none [("e", Dir.mk none [])]) := by
    refine NoRepos.mk _ ?_
    intro nc hnc
    rw [List.mem_singleton] at hnc
    subst hnc
    exact NoRepos.mk [] (fun _ h => absurd h (List.not_mem_nil _))
  refine ⟨rfl, ?_, hnr, ?_⟩
  · exact (C7_zero_budget_and_no_repos
      (.mk none [("a", .mk (some (Repo.mk [Remote.mk "origin" (.ok [0])])) [])])
      [] none none []).1 rfl
  · exact (C7_zero_budget_and_no_repos (.mk none [("e", .mk none [])])
      [] none none []).2 hnr 7

theorem walk_neg_eq_unbounded : ∀ (n : Nat) (d : Dir), sizeOf d ≤ n →
    ∀ (path : DirPath) (recurse : Int) (incl exc : Option (List String))
      (excl : List String),
    recurse < 0 →
    fetch_remotes_in_subfolders d path recurse incl exc excl
      = walkUnbounded d path incl exc excl := by
  intro n
  induction n with
  | zero =>
    intro d hd
    exfalso
    cases d with
    | mk r c =>
      simp only [Dir.mk.sizeOf_spec, Nat.le_zero] at hd
      omega
  | succ n ih =>
    intro d hd path recurse incl exc excl hneg
    match d with
    | .mk (some repo) children =>
      rw [walk_repo_eq, walkUnbounded_repo_eq]
    | .mk none children =>
      have hr : recurse ≠ 0 := by omega
      rw [walk_notrepo_eq _ _ _ _ _ _ hr, walkUnbounded_notrepo_eq]
      have hsz : ∀ nc ∈ children.filter
          (fun nc => !startsWithDot nc.1 && !excl.contains nc.1),
          sizeOf nc.2 ≤ n := by
        intro nc hnc
        obtain ⟨nm, ch⟩ := nc
        have h1 := List.mem_of_mem_filter hnc
        have h2 := List.sizeOf_lt_of_mem h1
        simp only [Prod.mk.sizeOf_spec] at h2
        simp only [Dir.mk.sizeOf_spec] at hd
        simp only []
        omega
      have key : ∀ folders : List (String × Dir),
          (∀ nc ∈ folders, sizeOf nc.2 ≤ n) →
          gatherSubfolders folders path recurse incl exc
            = gatherUnbounded folders path incl exc := by
        intro folders
        induction folders with
        | nil =>
          intro _
          rw [gather_nil_eq, gatherUnbounded_nil_eq]
        | cons nc rest ihf =>
          intro hsz2
          obtain ⟨nm, ch⟩ := nc
          rw [gather_cons_eq, gatherUnbounded_cons_eq]
          rw [ih ch (hsz2 (nm, ch) (List.mem_cons_self _ _)) (path ++ [nm])
            (recurse - 1) incl exc [] (by omega)]
          rw [ihf (fun q hq => hsz2 q (List.mem_cons_of_mem _ hq))]
      rw [key _ hsz]

/-- C10: a negative recursion budget never triggers the `recurse == 0`
stop — the walk coincides with the budget-free walk (whose totality on the
finite tree is witnessed by `walkUnbounded` being a total function) — and
any two negative budgets walk identically. -/
theorem C10_negative_budget_descends (d : Dir) (path : DirPath) (recurse : Int)
    (incl exc : Option (List String)) (excl : List String) (h : recurse < 0) :
    fetch_remotes_in_subfolders d path recurse incl exc excl
      = walkUnbounded d path incl exc excl ∧
    (∀ r2 : Int, r2 < 0 →
      fetch_remotes_in_subfolders d path recurse incl exc excl
        = fetch_remotes_in_subfolders d path r2 incl exc excl) := by
  constructor
  · exact walk_neg_eq_unbounded (sizeOf d) d (le_refl _) path recurse incl exc excl h
  · intro r2 h2
    rw [walk_neg_eq_unbounded (sizeOf d) d (le_refl _) path recurse incl exc excl h,
      walk_neg_eq_unbounded (sizeOf d) d (le_refl _) path r2 incl exc excl h2]

/-- Witness for C10: budget `-1` walks a two-level tree exactly like the
budget-free walk, and like budget `-5`. -/
theorem C10_witness :
    ((-1 : Int) < 0) ∧
    fetch_remotes_in_subfolders
      (.mk none [("a", .mk (some (Repo.mk [Remote.mk "origin" (.ok [0])])) [])])
      [] (-1) none none []
      = walkUnbounded
        (.mk none [("a", .mk (some (Repo.mk [Remote.mk "origin" (.ok [0])])) [])])
        [] none none [] ∧
    fetch_remotes_in_subfolders
      (.mk none [("a", .mk (some (Repo.mk [Remote.mk "origin" (.ok [0])])) [])])
      [] (-1) none none []
      = fetch_remotes_in_subfolders
        (.mk none [("a", .mk (some (Repo.mk [Remote.mk "origin" (.ok [0])])) [])])
        [] (-5) none none [] := by
  have h := C10_negative_budget_descends
    (.mk none [("a", .mk (some (Repo.mk [Remote.mk "origin" (.ok [0])])) [])])
    [] (-1) none none [] (by decide)
  exact ⟨by decide, h.1, h.2 (-5) (by decide)⟩

theorem dictLookup_some_mem {K V : Type} [DecidableEq K] {d : List (K × V)}
    {k : K} {v : V} (h : dictLookup d k = some v) : k ∈ dictKeys d := by
  by_contra hk
  rw [dictLookup_eq_none.mpr hk] at h
  cases h

/-- C8: merging the result sets of two walks whose key sets are disjoint is
a disjoint union: it is plain concatenation, its size is the sum of the two
sizes, its key list is the concatenation of the two key lists, and every
key keeps the outcome it had in its originating result set. -/
theorem C8_disjoint_merge (d1 d2 : Dir) (p1 p2 : DirPath) (r1 r2 : Int)
    (i1 e1 i2 e2 : Option (List String)) (x1 x2 : List String) (a b : ResultSet)
    (ha : fetch_remotes_in_subfolders d1 p1 r1 i1 e1 x1 = .ok a)
    (hb : fetch_remotes_in_subfolders d2 p2 r2 i2 e2 x2 = .ok b)
    (hdisj : ∀ k ∈ dictKeys b, k ∉ dictKeys a) :
    dictUnion a b = a ++ b ∧
    (dictUnion a b).length = a.length + b.length ∧
    dictKeys (dictUnion a b) = dictKeys a ++ dictKeys b ∧
    (∀ k v, dictLookup a k = some v → dictLookup (dictUnion a b) k = some v) ∧
    (∀ k v, dictLookup b k = some v → dictLookup (dictUnion a b) k = some v) := by
  have hbn := walk_keys_nodup d2 p2 r2 i2 e2 x2 b hb
  have hu : dictUnion a b = a ++ b := dictUnion_disjoint hbn hdisj
  refine ⟨hu, ?_, ?_, ?_, ?_⟩
  · rw [hu, List.length_append]
  · rw [hu, dictKeys_append]
  · intro k v h1
    rw [hu]
    exact dictLookup_append_left h1 b
  · intro k v h1
    rw [hu]
    rw [dictLookup_append_right (hdisj k (dictLookup_some_mem h1)) b]
    exact h1

/-- Witness for C8: the results of two sibling single-repository walks
merge into their concatenation. -/
theorem C8_witness :
    fetch_remotes_in_subfolders (.mk (some (Repo.mk [Remote.mk "origin" (.ok [4])])) [])
      ["x"] 1 none none []
      = .ok [((["x"], "origin"), .success false)] ∧
    fetch_remotes_in_subfolders (.mk (some (Repo.mk [Remote.mk "origin" (.ok [0])])) [])
      ["y"] 1 none none []
      = .ok [((["y"], "origin"), .success true)] ∧
    dictUnion [((["x"], "origin"), FetchResult.success false)]
        [((["y"], "origin"), FetchResult.success true)]
      = [((["x"], "origin"), FetchResult.success false),
         ((["y"], "origin"), FetchResult.success true)] := by
  have hx : fetch_remotes_in_subfolders
      (.mk (some (Repo.mk [Remote.mk "origin" (.ok [4])])) []) ["x"] 1 none none []
      = .ok [((["x"], "origin"), .success false)] := by
    rw [walk_repo_eq]
    rfl
  have hy : fetch_remotes_in_subfolders
      (.mk (some (Repo.mk [Remote.mk "origin" (.ok [0])])) []) ["y"] 1 none none []
      = .ok [((["y"], "origin"), .success true)] := by
    rw [walk_repo_eq]
    rfl
  refine ⟨hx, hy, ?_⟩
  exact (C8_disjoint_merge _ _ _ _ _ _ _ _ _ _ _ _ _ _ hx hy (by decide)).1

/-- C3: a repository whose first remote raises a fetch-domain error
contributes a failed outcome carrying that error for exactly its
(path, remote) key; its sibling remote and every result of the sibling
subtree keep their own outcomes in the merged result set. -/
theorem C3_failure_isolated (e : PyErr) (he : e.isException = true)
    (r1 r2 : String) (hr12 : r1 ≠ r2) (infos : List Nat)
    (n1 n2 : String) (hn1 : startsWithDot n1 = false)
    (hn2 : startsWithDot n2 = false) (hn12 : n1 ≠ n2)
    (path : DirPath) (excl : List String)
    (hx1 : n1 ∉ excl) (hx2 : n2 ∉ excl) (recurse : Int) (hrec : recurse ≠ 0)
    (d2 : Dir) (res2 : ResultSet)
    (h2 : fetch_remotes_in_subfolders d2 (path ++ [n2]) (recurse - 1) none none []
      = .ok res2) :
    ∃ res, fetch_remotes_in_subfolders
        (.mk none [(n1, .mk (some (Repo.mk [Remote.mk r1 (.error e),
          Remote.mk r2 (.ok infos)])) []), (n2, d2)])
        path recurse none none excl = .ok res ∧
      dictLookup res (path ++ [n1], r1) = some (.failure e) ∧
      dictLookup res (path ++ [n1], r2)
        = some (.success (!(infos.all fun info => (info >>> 2) % 2 != 0))) ∧
      (∀ k v, dictLookup res2 k = some v → dictLookup res k = some v) := by
  have hfsr : fetch_single_repo
      (Repo.mk [Remote.mk r1 (.error e), Remote.mk r2 (.ok infos)]) none none
      = .ok [(r1, .failure e),
             (r2, .success (!(infos.all fun info => (info >>> 2) % 2 != 0)))] := by
    unfold fetch_single_repo
    dsimp only
    simp only [filterRemotes, List.map]
    rw [dictOfList_nodup_id (by simp [dictKeys, hr12])]
    simp [collectResults, fetch_remote, he]
  have hwA : fetch_remotes_in_subfolders
      (.mk (some (Repo.mk [Remote.mk r1 (.error e), Remote.mk r2 (.ok infos)])) [])
      (path ++ [n1]) (recurse - 1) none none []
      = .ok [((path ++ [n1], r1), .failure e),
             ((path ++ [n1], r2),
               .success (!(infos.all fun info => (info >>> 2) % 2 != 0)))] := by
    rw [walk_repo_eq, hfsr]
    exact congrArg Except.ok (dictOfList_nodup_id (by simp [dictKeys, hr12]))
  rw [walk_notrepo_eq _ _ _ _ _ _ hrec]
  have hfilter : ([(n1, Dir.mk (some (Repo.mk [Remote.mk r1 (.error e),
        Remote.mk r2 (.ok infos)])) []), (n2, d2)].filter
      (fun nc => !startsWithDot nc.1 && !excl.contains nc.1))
      = [(n1, Dir.mk (some (Repo.mk [Remote.mk r1 (.error e),
          Remote.mk r2 (.ok infos)])) []), (n2, d2)] := by
    simp [List.filter, hn1, hn2, hx1, hx2]
  rw [hfilter, gather_cons_eq, hwA, gather_cons_eq, h2, gather_nil_eq]
  have hA1 : dictUnion ([] : ResultSet)
      [((path ++ [n1], r1), FetchResult.failure e),
       ((path ++ [n1], r2),
         FetchResult.success (!(infos.all fun info => (info >>> 2) % 2 != 0)))]
      = [((path ++ [n1], r1), FetchResult.failure e),
         ((path ++ [n1], r2),
           FetchResult.success (!(infos.all fun info => (info >>> 2) % 2 != 0)))] := by
    rw [← dictOfList_eq_dictUnion_nil]
    exact dictOfList_nodup_id (by simp [dictKeys, hr12])
  have hdisj : ∀ k ∈ dictKeys res2, k ∉ dictKeys
      [((path ++ [n1], r1), FetchResult.failure e),
       ((path ++ [n1], r2),
         FetchResult.success (!(infos.all fun info => (info >>> 2) % 2 != 0)))] := by
    intro k hk
    have hpre := walk_path_prefix (sizeOf d2) d2 (le_refl _) (path ++ [n2])
      (recurse - 1) none none [] res2 h2 k hk
    have hne : k.1 ≠ path ++ [n1] := by
      intro hcontra
      rw [hcontra] at hpre
      have hlen : (path ++ [n2]).length = (path ++ [n1]).length := by simp
      have heq := hpre.eq_of_length hlen
      have := List.append_cancel_left heq
      simp only [List.cons.injEq, and_true] at this
      exact hn12 this.symm
    simp only [dictKeys, List.map_cons, List.map_nil, List.mem_cons,
      List.mem_singleton]
    rintro (h1 | h1 | h1)
    · exact hne (congrArg Prod.fst h1)
    · exact hne (congrArg Prod.fst h1)
    · cases h1
  have hbn := walk_keys_nodup d2 _ _ _ _ _ res2 h2
  have hures := dictUnion_disjoint hbn hdisj
  have hfold : List.foldl (fun fetched r => dictUnion fetched r) ([] : ResultSet)
      [[((path ++ [n1], r1), FetchResult.failure e),
        ((path ++ [n1], r2),
          FetchResult.success (!(infos.all fun info => (info >>> 2) % 2 != 0)))],
       res2]
      = [((path ++ [n1], r1), FetchResult.failure e),
         ((path ++ [n1], r2),
           FetchResult.success (!(infos.all fun info => (info >>> 2) % 2 != 0)))]
        ++ res2 := by
    simp only [List.foldl_cons, List.foldl_nil]
    rw [hA1, hures]
  refine ⟨_, rfl, ?_, ?_, ?_⟩
  · rw [hfold]
    exact dictLookup_append_left (dictLookup_cons_self _ _ _) res2
  · rw [hfold]
    refine dictLookup_append_left ?_ res2
    rw [dictLookup_cons_ne (by simp [hr12]) _ _]
    exact dictLookup_cons_self _ _ _
  · intro k v hkv
    rw [hfold]
    rw [dictLookup_append_right (hdisj k (dictLookup_some_mem hkv)) res2]
    exact hkv

/-- Witness for C3: a concrete two-repository tree where one remote fails
with a fetch-domain error while the sibling repository still reports. -/
theorem C3_witness :
    (PyErr.mk "GitCommandError" true).isException = true ∧
    fetch_remotes_in_subfolders
      (.mk (some (Repo.mk [Remote.mk "origin" (.ok [0])])) []) (["b"] : DirPath)
      2 none none [] = .ok [((["b"], "origin"), .success true)] ∧
    (∃ res, fetch_remotes_in_subfolders
        (.mk none [("a", .mk (some (Repo.mk
          [Remote.mk "origin" (.error (PyErr.mk "GitCommandError" true)),
           Remote.mk "backup" (.ok [4])])) []),
          ("b", .mk (some (Repo.mk [Remote.mk "origin" (.ok [0])])) [])])
        [] 3 none none [] = .ok res ∧
      dictLookup res ((["a"] : DirPath), "origin")
        = some (.failure (PyErr.mk "GitCommandError" true)) ∧
      dictLookup res (["a"], "backup")
        = some (.success (!(([4] : List Nat).all
            fun info => (info >>> 2) % 2 != 0))) ∧
      (∀ k v, dictLookup [((["b"], "origin"), FetchResult.success true)] k = some v →
        dictLookup res k = some v)) := by
  have h2 : fetch_remotes_in_subfolders
      (.mk (some (Repo.mk [Remote.mk "origin" (.ok [0])])) []) (["b"] : DirPath)
      2 none none [] = .ok [((["b"], "origin"), .success true)] := by
    rw [walk_repo_eq]
    rfl
  refine ⟨rfl, h2, ?_⟩
  have h3 := C3_failure_isolated (PyErr.mk "GitCommandError" true) rfl
    "origin" "backup" (by decide) [4] "a" "b" (by decide) (by decide) (by decide)
    [] [] (by decide) (by decide) 3 (by decide)
    (.mk (some (Repo.mk [Remote.mk "origin" (.ok [0])])) [])
    [((["b"], "origin"), .success true)] h2
  simp only [List.nil_append] at h3
  exact h3

/-- C1 counterexample: the claim says an out-of-memory or programming
error propagates uncaught rather than being recorded per key; but Python's
`MemoryError` derives from `Exception`, so the walk records it as the
(path, remote) outcome and returns normally instead of raising. -/
theorem C1_counterexample :
    MemoryError.isException = true ∧
    TypeError.isException = true ∧
    fetch_remotes_in_subfolders
      (.mk (some (Repo.mk [Remote.mk "origin" (.error MemoryError)])) [])
      ["root"] 3 none none []
      = .ok [((["root"], "origin"), .failure MemoryError)] ∧
    fetch_remotes_in_subfolders
      (.mk (some (Repo.mk [Remote.mk "origin" (.error TypeError)])) [])
      ["root"] 3 none none []
      = .ok [((["root"], "origin"), .failure TypeError)] := by
  refine ⟨rfl, rfl, ?_, ?_⟩
  · rw [walk_repo_eq]
    rfl
  · rw [walk_repo_eq]
    rfl

/-- C1 (amended): an error raised by a single-remote fetch is captured in
the result set as a failed outcome for that (path, remote) key exactly when
it is an instance of `Exception` — which includes fetch-domain failures but
also programming errors and out-of-memory — while an error that is a
`BaseException` without being an `Exception` (a cancellation signal,
keyboard interrupt or system exit) propagates uncaught out of the whole
walk and aborts it instead of being recorded. -/
theorem C1_exception_boundary (e : PyErr) (rname : String) (path : DirPath)
    (recurse : Int) (excl : List String) (n : String)
    (hn : startsWithDot n = false) (hx : n ∉ excl) (r0 : Int) (hr0 : r0 ≠ 0) :
    (e.isException = true →
      fetch_remotes_in_subfolders
        (.mk (some (Repo.mk [Remote.mk rname (.error e)])) []) path recurse
        none none excl
      = .ok [((path, rname), .failure e)]) ∧
    (e.isException = false →
      fetch_remotes_in_subfolders
        (.mk (some (Repo.mk [Remote.mk rname (.error e)])) []) path recurse
        none none excl
      = .error e) ∧
    (e.isException = false →
      fetch_remotes_in_subfolders
        (.mk none [(n, .mk (some (Repo.mk [Remote.mk rname (.error e)])) [])])
        path r0 none none excl
      = .error e) := by
  have hfsr : ∀ he : e.isException = true,
      fetch_single_repo (Repo.mk [Remote.mk rname (.error e)]) none none
      = .ok [(rname, .failure e)] := by
    intro he
    unfold fetch_single_repo
    dsimp only
    simp only [filterRemotes, List.map]
    rw [dictOfList_nodup_id (by simp [dictKeys])]
    simp [collectResults, fetch_remote, he]
  have hfsr2 : ∀ _he : e.isException = false,
      fetch_single_repo (Repo.mk [Remote.mk rname (.error e)]) none none
      = .error e := by
    intro he
    unfold fetch_single_repo
    dsimp only
    simp only [filterRemotes, List.map]
    rw [dictOfList_nodup_id (by simp [dictKeys])]
    simp [collectResults, fetch_remote, he]
  refine ⟨?_, ?_, ?_⟩
  · intro he
    rw [walk_repo_eq, hfsr he]
    exact congrArg Except.ok (dictOfList_nodup_id (by simp [dictKeys]))
  · intro he
    rw [walk_repo_eq, hfsr2 he]
  · intro he
    rw [walk_notrepo_eq _ _ _ _ _ _ hr0]
    have hfilter : ([(n, Dir.mk (some (Repo.mk [Remote.mk rname (.error e)])) [])].filter
        (fun nc => !startsWithDot nc.1 && !excl.contains nc.1))
        = [(n, Dir.mk (some (Repo.mk [Remote.mk rname (.error e)])) [])] := by
      simp [List.filter, hn, hx]
    rw [hfilter, gather_cons_eq, walk_repo_eq, hfsr2 he]

/-- Witness for C1 (amended): a cancellation signal raised by the only
remote of a repository one level below the root aborts the whole walk. -/
theorem C1_witness :
    (startsWithDot "sub" = false) ∧ ("sub" ∉ ([] : List String)) ∧
    ((3 : Int) ≠ 0) ∧
    CancelledError.isException = false ∧
    fetch_remotes_in_subfolders
      (.mk none [("sub", .mk (some (Repo.mk
        [Remote.mk "origin" (.error CancelledError)])) [])])
      [] 3 none none [] = .error CancelledError := by
  have h := C1_exception_boundary CancelledError "origin" [] 5 [] "sub"
    (by decide) (by decide) 3 (by decide)
  exact ⟨by decide, by decide, by decide, rfl, h.2.2 rfl⟩

end GitFetchAll
